import Mathlib

/-!
Verification of the segment-driven playback/capture pipeline of the
SmartCut video editor.

The development shallowly embeds the TypeScript source:

* `types.ts` (src/unnamed/part_001, second half): the `EditSegment` data
  model with its `SegmentAction` / `SegmentType` enumerations.
* `SmartPlayer.tsx`: the segment locator `getActiveSegment` and the
  per-frame live-playback control loop `updateLoop`.
* `videoExport.ts` (third part of src/components/UploadZone.tsx):
  `exportProcessedVideo`'s sequential export state machine —
  `processNextSegment`, the seek handling, the `checkEnd` position
  monitor with its `isPlaying` armed flag, the play-promise handlers,
  `cleanup`, and the recorder `onstop` path.  The machine is modelled as
  an explicit state (`ExportState`) plus a `step` function consuming the
  asynchronous transport/recorder events one at a time — faithful to the
  browser's single-threaded event loop described in the spec.
* `geminiService.ts` (src/unnamed/part_001, first half): the
  deterministic clamp-and-sort tail of `refineSegment` (given the parsed
  upstream response), and `App.handleSplitSegment`'s splice.

Times and rates are rational numbers (all constants of the source —
0.01, 0.05, 0.1, 50 ms — are exact in ℚ); the JavaScript float
arithmetic is exact at every constant the claims mention.
-/

/-- `SegmentAction` from types.ts. -/
inductive SegmentAction where
  | KEEP
  | DELETE
deriving DecidableEq, Repr

/-- `SegmentType` from types.ts. -/
inductive SegmentType where
  | CORE
  | CONTEXT
  | MECHANICAL
  | SILENCE
  | FILLER
deriving DecidableEq, Repr

/-- `EditSegment` from types.ts.  `end` is a Lean keyword, hence the
guillemets.  `isProcessing` is the transient "busy" flag. -/
structure EditSegment where
  start : ℚ
  «end» : ℚ
  speed : ℚ
  action : SegmentAction
  type : SegmentType
  summary : String
  isProcessing : Bool
deriving DecidableEq, Repr

instance : Inhabited EditSegment :=
  ⟨⟨0, 0, 1, SegmentAction.KEEP, SegmentType.CORE, "", false⟩⟩

/-! ## Segment locator (SmartPlayer.tsx, lines 29–31)

`segments.find(s => time >= s.start && time < s.end)`. -/

def getActiveSegment (segments : List EditSegment) (time : ℚ) : Option EditSegment :=
  segments.find? (fun s => decide (s.start ≤ time) && decide (time < s.«end»))

/-! ## Live playback controller (SmartPlayer.tsx, `updateLoop`, lines 46–88)

One tick of the per-frame loop.  The tick reads the transport position,
checks the `stopAt` breakpoint, locates the active segment and applies
its policy.  The result records every transport-visible action of the
tick; the React HUD state updates (`setCurrentReason` / `setCurrentAction`
/ `setCurrentSpeed`) are display-only and not part of the model. -/

structure TickResult where
  /-- the tick paused the transport (stop-at breakpoint reached) -/
  didPause : Bool
  /-- the `onStopReached` callback fired -/
  stopReached : Bool
  /-- position written to the transport (the DELETE skip-jump), if any -/
  seekTo : Option ℚ
  /-- playback rate written to the transport, if any -/
  newRate : Option ℚ
deriving DecidableEq, Repr

/-- Lines 63–85 of `updateLoop`: locate the active segment and apply its
policy (skip-if-delete, set-speed, gap fallback). -/
def updateLoopLocate (segments : List EditSegment)
    (playbackRate : ℚ) (time : ℚ) : TickResult :=
  match getActiveSegment segments time with
  | some segment =>
      if segment.action = SegmentAction.DELETE then
        -- Skip logic, line 71: `video.currentTime = segment.end + 0.01`
        ⟨false, false, some (segment.«end» + 1/100), none⟩
      else
        -- Speed logic, lines 74–77
        if |playbackRate - segment.speed| > 1/10 then
          ⟨false, false, none, some segment.speed⟩
        else
          ⟨false, false, none, none⟩
  | none =>
      -- Default fallback if gaps exist, lines 81–84
      if playbackRate ≠ 1 then
        ⟨false, false, none, some 1⟩
      else
        ⟨false, false, none, none⟩

def updateLoop (segments : List EditSegment) (stopAt : Option ℚ)
    (playbackRate : ℚ) (time : ℚ) : TickResult :=
  -- Check Stop Condition (for Segment Preview): lines 53–61
  match stopAt with
  | some sa =>
      if sa ≤ time then ⟨true, true, none, none⟩
      else updateLoopLocate segments playbackRate time
  | none => updateLoopLocate segments playbackRate time

/-! ## Export controller (videoExport.ts, `exportProcessedVideo`)

The export runs on the browser event loop: every transport or recorder
callback is an `Ev`ent, handled atomically by `step`.  `ExportState`
holds the closure variables of `exportProcessedVideo`
(`currentSegmentIndex`, `chunks`, the promise, the pending listeners)
together with the observable state of the hidden `<video>` element and
the `MediaRecorder`.  Each handler also returns the list of commands it
issued to the transport/recorder, in order. -/

inductive Cmd where
  /-- `video.currentTime = t` used as a seek request -/
  | setPosition (t : ℚ)
  /-- `video.play()` -/
  | play
  /-- `video.pause()` -/
  | pause
  /-- `video.playbackRate = r` -/
  | setRate (r : ℚ)
  /-- `mediaRecorder.stop()` -/
  | recorderStop
  /-- `document.body.removeChild(video)` — releasing the hidden transport -/
  | releaseVideo
deriving DecidableEq, Repr

inductive RecState where
  | recording
  | inactive
deriving DecidableEq, Repr

/-- Settlement state of the promise returned by `exportProcessedVideo`.
A JS promise settles at most once: the first `resolve`/`reject` wins. -/
inductive PromiseState where
  | pending
  | resolvedOk (chunks : ℕ) (extension : String)
  | rejectedErr (msg : String)
deriving DecidableEq, Repr

structure ExportState where
  segments : List EditSegment
  /-- `currentSegmentIndex` -/
  idx : ℕ
  /-- `video.currentTime` as last reported/written -/
  pos : ℚ
  /-- `video.playbackRate` -/
  rate : ℚ
  /-- `video.paused` -/
  paused : Bool
  /-- `video.ended` -/
  ended : Bool
  /-- the hidden video element is still appended to `document.body` -/
  attached : Bool
  /-- `mediaRecorder.state` -/
  recState : RecState
  /-- number of accumulated data chunks (`chunks.push`) -/
  chunks : ℕ
  /-- selected container extension -/
  extension : String
  promise : PromiseState
  /-- a `{ once: true }` listener for `seeked` is registered -/
  seekedListener : Bool
  /-- the `checkEnd` `timeupdate` listener is attached -/
  checkEndAttached : Bool
  /-- the local `isPlaying` armed flag of the current `onSeeked` closure -/
  isPlaying : Bool
  /-- a `video.play()` promise is outstanding -/
  playPending : Bool
  /-- a `setTimeout(processNextSegment, 0)` continuation is queued -/
  timeoutPending : Bool
  /-- the recorder `onstop` callback is queued -/
  stopPending : Bool
  /-- the `const seg = segments[currentSegmentIndex]` captured by the
  closures of the segment currently being processed.  In every reachable
  state it equals `segments[idx]` while a segment is mid-flight: the
  index only advances after the closures of the previous segment are
  detached. -/
  curSeg : EditSegment
  /-- the arguments of the `onProgress` calls so far, in order -/
  progressLog : List ℤ
deriving DecidableEq, Repr

/-- `Math.min(100, Math.round((currentSegmentIndex / segments.length) * 100))`
(line 619).  JS `Math.round` rounds half toward `+∞`, as does Mathlib's
`round` on ℚ. -/
def exportProgress (i n : ℕ) : ℤ :=
  min 100 (round (((i : ℚ) / (n : ℚ)) * 100))

/-- `cleanup()` (lines 563–566): detach the hidden video element if still
attached; stop the recorder if it is not inactive (queueing its `onstop`
callback). -/
def cleanup (s : ExportState) : ExportState × List Cmd :=
  let r :=
    if s.attached then ({s with attached := false}, [Cmd.releaseVideo])
    else (s, ([] : List Cmd))
  if r.1.recState = RecState.recording then
    ({r.1 with recState := RecState.inactive, stopPending := true},
      r.2 ++ [Cmd.recorderStop])
  else r

/-- `reject(new Error(msg))`: settles the promise only if still pending. -/
def rejectP (msg : String) (s : ExportState) : ExportState :=
  if s.promise = PromiseState.pending then
    {s with promise := PromiseState.rejectedErr msg}
  else s

/-- `resolve({ blob, extension })`: settles the promise only if still
pending; the blob is assembled from the accumulated chunks. -/
def resolveP (ch : ℕ) (ext : String) (s : ExportState) : ExportState :=
  if s.promise = PromiseState.pending then
    {s with promise := PromiseState.resolvedOk ch ext}
  else s

/-- `onSeeked` (lines 633–684, minus the handlers that only run later):
set the playback rate to the segment's speed, reset the local `isPlaying`
armed flag, attach the `checkEnd` `timeupdate` monitor, and issue
`video.play()` (which clears `paused` and leaves a promise outstanding).
The promise's `then`/`catch` handlers run later as `Ev.playResolved` /
`Ev.playRejected` events. -/
def onSeeked (s : ExportState) : ExportState × List Cmd :=
  ({ s with
      rate := s.curSeg.speed
      isPlaying := false
      checkEndAttached := true
      paused := false
      playPending := true },
    [Cmd.setRate s.curSeg.speed, Cmd.play])

/-- `processNextSegment` (lines 612–695).  Terminal: stop the recorder.
Otherwise report progress, then: a DELETE segment advances the index and
defers the continuation with `setTimeout(..., 0)` — no transport command,
no capture; a KEEP segment either proceeds straight to `onSeeked` when
the position is already within 50 ms of `segment.start`, or writes the
position and registers a one-shot `seeked` listener. -/
def processNextSegment (s : ExportState) : ExportState × List Cmd :=
  if s.segments.length ≤ s.idx then
    -- `mediaRecorder?.stop()`
    ({s with recState := RecState.inactive, stopPending := true},
      [Cmd.recorderStop])
  else
    let seg := s.segments.getD s.idx default
    let s1 := { s with
      curSeg := seg
      progressLog := s.progressLog ++ [exportProgress s.idx s.segments.length] }
    if seg.action = SegmentAction.DELETE then
      ({s1 with idx := s1.idx + 1, timeoutPending := true}, [])
    else
      if |s1.pos - seg.start| < 1/20 then
        onSeeked s1
      else
        ({s1 with seekedListener := true, pos := seg.start},
          [Cmd.setPosition seg.start])

/-- `checkEnd` (lines 640–652), run on every `timeupdate` while attached:
do nothing if the transport is paused or ended; do nothing unless the
armed flag `isPlaying` is set; once position reaches the segment's end,
pause, detach the monitor, advance the index and process the next
segment. -/
def checkEnd (s : ExportState) : ExportState × List Cmd :=
  if s.paused || s.ended then (s, [])
  else if !s.isPlaying then (s, [])
  else if s.curSeg.«end» ≤ s.pos then
    let r := processNextSegment
      {s with paused := true, checkEndAttached := false, idx := s.idx + 1}
    (r.1, Cmd.pause :: r.2)
  else (s, [])

/-- The play promise's `then` handler (lines 660–671): confirm playback
(`isPlaying = true`), then immediately re-check the stop condition once. -/
def onPlayResolved (s : ExportState) : ExportState × List Cmd :=
  let s1 := {s with isPlaying := true}
  if s1.curSeg.«end» ≤ s1.pos then
    let r := processNextSegment
      {s1 with paused := true, checkEndAttached := false, idx := s1.idx + 1}
    (r.1, Cmd.pause :: r.2)
  else (s1, [])

/-- The play promise's `catch` handler (lines 672–679): an `AbortError`
is swallowed; any other rejection runs `cleanup()` and rejects the whole
export with the underlying message. -/
def onPlayRejected (errName errMsg : String) (s : ExportState) :
    ExportState × List Cmd :=
  if errName ≠ "AbortError" then
    let r := cleanup s
    (rejectP ("Playback failed during export: " ++ errMsg) r.1, r.2)
  else (s, [])

/-- `mediaRecorder.onstop` (lines 596–600): assemble the blob from the
accumulated chunks, run `cleanup()`, resolve the export promise. -/
def onRecorderStop (s : ExportState) : ExportState × List Cmd :=
  let r := cleanup s
  (resolveP s.chunks s.extension r.1, r.2)

/-- The asynchronous events the environment (transport, recorder, timer)
can deliver to the export controller. -/
inductive Ev where
  /-- `timeupdate`: the transport reports position `p` -/
  | timeUpdate (p : ℚ)
  /-- `seeked`: the transport's seek-completion signal -/
  | seeked
  /-- the outstanding `video.play()` promise resolved -/
  | playResolved
  /-- the outstanding `video.play()` promise rejected with `name`/`message` -/
  | playRejected (name msg : String)
  /-- the queued `setTimeout(processNextSegment, 0)` fired -/
  | timeout
  /-- `mediaRecorder.onstop` fired -/
  | recorderStopped
  /-- `mediaRecorder.ondataavailable` with a chunk of `size` bytes -/
  | dataAvailable (size : ℕ)
  /-- the media element reached end of media (`ended`) -/
  | endedEvt
deriving DecidableEq, Repr

/-- One event-loop turn of the export controller: dispatch an event to
its handler.  A handler for a listener/promise/timer that is not
outstanding is a no-op, matching `removeEventListener`, `{ once: true }`
semantics and one-shot promises/timers. -/
def step (s : ExportState) (e : Ev) : ExportState × List Cmd :=
  match e with
  | Ev.timeUpdate p =>
      let s1 := {s with pos := p}
      if s1.checkEndAttached then checkEnd s1 else (s1, [])
  | Ev.seeked =>
      if s.seekedListener then onSeeked {s with seekedListener := false}
      else (s, [])
  | Ev.playResolved =>
      if s.playPending then onPlayResolved {s with playPending := false}
      else (s, [])
  | Ev.playRejected n m =>
      if s.playPending then onPlayRejected n m {s with playPending := false}
      else (s, [])
  | Ev.timeout =>
      if s.timeoutPending then processNextSegment {s with timeoutPending := false}
      else (s, [])
  | Ev.recorderStopped =>
      if s.stopPending then onRecorderStop {s with stopPending := false}
      else (s, [])
  | Ev.dataAvailable sz =>
      (if 0 < sz then {s with chunks := s.chunks + 1} else s, [])
  | Ev.endedEvt =>
      ({s with ended := true, paused := true}, [])

/-! ## Segment refinement (geminiService.ts `refineSegment`, lines 162–172,
and App.tsx `handleSplitSegment`, lines 165–189)

`refineSegment`'s deterministic tail, given the sub-segments parsed from
the upstream response: clamp every sub-segment into the requested
`[startTime, endTime]` range, then sort ascending by `start`
(`segments.sort((a, b) => a.start - b.start)`). -/

def refineClamp (startTime endTime : ℚ) (subs : List EditSegment) :
    List EditSegment :=
  subs.map (fun s => { s with
    start := max startTime s.start
    «end» := min endTime s.«end» })

def refineSegment (startTime endTime : ℚ) (subs : List EditSegment) :
    List EditSegment :=
  (refineClamp startTime endTime subs).mergeSort
    (fun a b => decide (a.start ≤ b.start))

/-- `handleSplitSegment` given the sub-segments the `refineSegment` call
produced: when non-empty, `newSegments.splice(index, 1, ...newSubSegments)`
replaces the target segment; when empty, the store is left as it was (the
transient `isProcessing` flag is set and reverted, a net no-op). -/
def handleSplitSegment (segments : List EditSegment) (index : ℕ)
    (upstream : List EditSegment) : List EditSegment :=
  let target := segments.getD index default
  let newSubSegments := refineSegment target.start target.«end» upstream
  if 0 < newSubSegments.length then
    segments.take index ++ newSubSegments ++ segments.drop (index + 1)
  else
    segments

/-! ## Store invariants (spec §3) -/

/-- Two segments overlap when their half-open intervals intersect. -/
def SegOverlap (a b : EditSegment) : Prop :=
  max a.start b.start < min a.«end» b.«end»

instance (a b : EditSegment) : Decidable (SegOverlap a b) := by
  unfold SegOverlap; infer_instance

/-- `a` and `b` may coexist in the store: if both are KEEP they must not
overlap (DELETE segments may overlap anything). -/
def KeepDisjoint (a b : EditSegment) : Prop :=
  a.action = SegmentAction.KEEP → b.action = SegmentAction.KEEP →
    ¬ SegOverlap a b

instance (a b : EditSegment) : Decidable (KeepDisjoint a b) := by
  unfold KeepDisjoint; infer_instance

/-- The "no two KEEP segments overlap" store invariant. -/
def NoKeepOverlap (l : List EditSegment) : Prop :=
  l.Pairwise KeepDisjoint

instance (l : List EditSegment) : Decidable (NoKeepOverlap l) := by
  unfold NoKeepOverlap; infer_instance

/-- The "sorted ascending by `start`" store invariant. -/
def SortedByStart (l : List EditSegment) : Prop :=
  l.Pairwise (fun a b => a.start ≤ b.start)

instance (l : List EditSegment) : Decidable (SortedByStart l) := by
  unfold SortedByStart; infer_instance

/-! ## Concrete fixtures (spec §8 scenarios, and states for witnesses) -/

/-- Scenario A of the spec: `[{0,5,1.0,KEEP},{5,8,1.0,DELETE},{8,12,2.0,KEEP}]`. -/
def scenarioA : List EditSegment :=
  [⟨0, 5, 1, SegmentAction.KEEP, SegmentType.CORE, "intro", false⟩,
   ⟨5, 8, 1, SegmentAction.DELETE, SegmentType.SILENCE, "dead air", false⟩,
   ⟨8, 12, 2, SegmentAction.KEEP, SegmentType.CONTEXT, "outro", false⟩]

/-- Scenario B of the spec: a single KEEP segment `{0,10,1.0}` on a 12 s
source, leaving the range 10–12 uncovered. -/
def scenarioB : List EditSegment :=
  [⟨0, 10, 1, SegmentAction.KEEP, SegmentType.CORE, "all", false⟩]

/-- An export mid-way through playing the first KEEP segment of scenario A:
play was issued (promise outstanding, not yet confirmed), the `checkEnd`
monitor is attached, the recorder is running. -/
def demoPlayingState : ExportState :=
  { segments := scenarioA
    idx := 0
    pos := 5
    rate := 1
    paused := false
    ended := false
    attached := true
    recState := RecState.recording
    chunks := 3
    extension := "webm"
    promise := PromiseState.pending
    seekedListener := false
    checkEndAttached := true
    isPlaying := false
    playPending := true
    timeoutPending := false
    stopPending := false
    curSeg := ⟨0, 5, 1, SegmentAction.KEEP, SegmentType.CORE, "intro", false⟩
    progressLog := [0] }

/-- An export about to process the DELETE segment of scenario A (index 1),
transport paused at the end of the first segment. -/
def demoDeleteState : ExportState :=
  { segments := scenarioA
    idx := 1
    pos := 5
    rate := 1
    paused := true
    ended := false
    attached := true
    recState := RecState.recording
    chunks := 4
    extension := "webm"
    promise := PromiseState.pending
    seekedListener := false
    checkEndAttached := false
    isPlaying := false
    playPending := false
    timeoutPending := false
    stopPending := false
    curSeg := ⟨0, 5, 1, SegmentAction.KEEP, SegmentType.CORE, "intro", false⟩
    progressLog := [0] }

/-- An export about to process the second KEEP segment of scenario A
(index 2), transport paused just past the deleted range. -/
def demoSeekState : ExportState :=
  { demoDeleteState with
    idx := 2
    pos := 5
    timeoutPending := false
    progressLog := [0, 33] }

/-- A store holding the single segment `{4, 9, KEEP}` of spec Scenario C. -/
def c9Store : List EditSegment :=
  [⟨4, 9, 1, SegmentAction.KEEP, SegmentType.CORE, "target", false⟩]

/-- An upstream refinement response whose sub-segments respect the
`[4, 9]` bounds but overlap each other as KEEP segments. -/
def c9BadSubs : List EditSegment :=
  [⟨4, 8, 1, SegmentAction.KEEP, SegmentType.CORE, "a", false⟩,
   ⟨5, 9, 1, SegmentAction.KEEP, SegmentType.CORE, "b", false⟩]

/-- Spec Scenario C's upstream refinement response: sub-segments
`[{4,6},{7,9}]` with a gap from 6 to 7. -/
def c9GoodSubs : List EditSegment :=
  [⟨4, 6, 1, SegmentAction.KEEP, SegmentType.CORE, "a", false⟩,
   ⟨7, 9, 1, SegmentAction.KEEP, SegmentType.CORE, "b", false⟩]

/-- A DELETE segment spanning the whole 12 s source. -/
def c8Segments : List EditSegment :=
  [⟨0, 12, 1, SegmentAction.DELETE, SegmentType.SILENCE, "all cut", false⟩]

/-! ## Theorems -/

/-! ### Segment locator -/

theorem getActiveSegment_some_spec {segments : List EditSegment} {time : ℚ}
    {seg : EditSegment} (h : getActiveSegment segments time = some seg) :
    seg ∈ segments ∧ seg.start ≤ time ∧ time < seg.«end» := by
  have hp := List.find?_some h
  simp only [Bool.and_eq_true, decide_eq_true_eq] at hp
  exact ⟨List.mem_of_find?_eq_some h, hp.1, hp.2⟩

theorem getActiveSegment_eq_none {segments : List EditSegment} {time : ℚ} :
    getActiveSegment segments time = none ↔
      ∀ seg ∈ segments, ¬(seg.start ≤ time ∧ time < seg.«end») := by
  rw [getActiveSegment, List.find?_eq_none]
  constructor <;> intro h seg hm <;> have := h seg hm <;> simp_all

theorem getActiveSegment_earliest {segments : List EditSegment} {time : ℚ}
    (hsort : SortedByStart segments) {seg : EditSegment}
    (h : getActiveSegment segments time = some seg) :
    ∀ s ∈ segments, s.start ≤ time → time < s.«end» → seg.start ≤ s.start := by
  induction segments with
  | nil => simp [getActiveSegment] at h
  | cons a l ih =>
      rw [SortedByStart, List.pairwise_cons] at hsort
      intro s hs h1 h2
      by_cases ha : a.start ≤ time ∧ time < a.«end»
      · have hseg : seg = a := by
          rw [getActiveSegment, List.find?_cons_of_pos] at h
          · exact (Option.some_inj.mp h).symm
          · simpa using ha
        subst hseg
        rcases List.mem_cons.mp hs with rfl | hs'
        · exact le_refl _
        · exact hsort.1 s hs'
      · have hfind : getActiveSegment l time = some seg := by
          rw [getActiveSegment, List.find?_cons_of_neg] at h
          · exact h
          · simpa using ha
        rcases List.mem_cons.mp hs with rfl | hs'
        · exact absurd ⟨h1, h2⟩ ha
        · exact ih hsort.2 hfind s hs' h1 h2

/-- Claim C5: for every segment list and every time `t`, `getActiveSegment`
returns the first segment whose half-open interval `[start, end)` contains
`t` — a returned segment is a member containing `t`, and `none` is
returned exactly when no member contains `t`; and on a list sorted
ascending by `start` (the store invariant, which in particular orders
overlapping segments), the returned segment is an earliest-starting match,
so the earliest-starting of two overlapping matches wins. -/
theorem locate_first_containing_claim (segments : List EditSegment) (time : ℚ) :
    (∀ seg, getActiveSegment segments time = some seg →
      seg ∈ segments ∧ seg.start ≤ time ∧ time < seg.«end») ∧
    (getActiveSegment segments time = none ↔
      ∀ seg ∈ segments, ¬(seg.start ≤ time ∧ time < seg.«end»)) ∧
    (SortedByStart segments →
      ∀ seg, getActiveSegment segments time = some seg →
        ∀ s ∈ segments, s.start ≤ time → time < s.«end» → seg.start ≤ s.start) :=
  ⟨fun _ h => getActiveSegment_some_spec h,
   getActiveSegment_eq_none,
   fun hsort _ h => getActiveSegment_earliest hsort h⟩

/-- Concrete instance of claim C5 at the sorted, overlapping list
`[{2,10}, {4,6}]` and `t = 5`: both segments contain 5 and the
earliest-starting one is returned. -/
theorem locate_first_containing_claim_witness :
    ((⟨2, 10, 1, SegmentAction.KEEP, SegmentType.CORE, "x", false⟩ : EditSegment) ∈
        ([⟨2, 10, 1, SegmentAction.KEEP, SegmentType.CORE, "x", false⟩,
          ⟨4, 6, 1, SegmentAction.KEEP, SegmentType.CONTEXT, "y", false⟩] :
            List EditSegment) ∧
      (⟨2, 10, 1, SegmentAction.KEEP, SegmentType.CORE, "x", false⟩ :
          EditSegment).start ≤ (5 : ℚ) ∧
      (5 : ℚ) < (⟨2, 10, 1, SegmentAction.KEEP, SegmentType.CORE, "x", false⟩ :
          EditSegment).«end») ∧
    (⟨2, 10, 1, SegmentAction.KEEP, SegmentType.CORE, "x", false⟩ :
        EditSegment).start ≤
      (⟨4, 6, 1, SegmentAction.KEEP, SegmentType.CONTEXT, "y", false⟩ :
        EditSegment).start := by
  have h := locate_first_containing_claim
    [⟨2, 10, 1, SegmentAction.KEEP, SegmentType.CORE, "x", false⟩,
     ⟨4, 6, 1, SegmentAction.KEEP, SegmentType.CONTEXT, "y", false⟩] 5
  exact ⟨h.1 _ (by decide),
    h.2.2 (by decide) _ (by decide) _ (by decide) (by decide) (by decide)⟩

/-! ### Live playback controller -/

/-- Claim C6: on any tick whose position is covered by a DELETE segment
(and at which the `stopAt` preview breakpoint does not fire, the check the
source performs first), the controller writes `segment.end + 0.01` — a
10 ms epsilon past the segment's end, a hard cut — to the transport
position, does not pause, and does not change the playback rate. -/
theorem delete_tick_skip_jump_claim (segments : List EditSegment)
    (stopAt : Option ℚ) (playbackRate time : ℚ) (segment : EditSegment)
    (hstop : ∀ sa, stopAt = some sa → time < sa)
    (hloc : getActiveSegment segments time = some segment)
    (hdel : segment.action = SegmentAction.DELETE) :
    updateLoop segments stopAt playbackRate time
      = ⟨false, false, some (segment.«end» + 1/100), none⟩ := by
  have hbody : updateLoopLocate segments playbackRate time
      = ⟨false, false, some (segment.«end» + 1/100), none⟩ := by
    rw [updateLoopLocate, hloc]
    simp [hdel]
  cases stopAt with
  | none => simpa [updateLoop] using hbody
  | some sa =>
      have : ¬ sa ≤ time := not_le.mpr (hstop sa rfl)
      simpa [updateLoop, this] using hbody

/-- Spec Scenario A instance of claim C6: on
`[{0,5,1.0,KEEP},{5,8,1.0,DELETE},{8,12,2.0,KEEP}]`, a tick at position 6
writes position `8.01`. -/
theorem delete_tick_skip_jump_claim_witness :
    updateLoop scenarioA none 1 6 = ⟨false, false, some (801/100), none⟩ := by
  have h := delete_tick_skip_jump_claim scenarioA none 1 6
    ⟨5, 8, 1, SegmentAction.DELETE, SegmentType.SILENCE, "dead air", false⟩
    (fun sa hsa => by cases hsa) (by decide) (by decide)
  rw [h]
  norm_num

/-- Claim C7: on any tick whose position is covered by no segment (a gap,
and at which the `stopAt` breakpoint does not fire), the controller
resets the playback rate to 1.0 exactly when the rate is not already 1,
and issues no skip-jump and no pause: gaps are implicit KEEP at speed
1.0, never an error. -/
theorem gap_tick_fallback_claim (segments : List EditSegment)
    (stopAt : Option ℚ) (playbackRate time : ℚ)
    (hstop : ∀ sa, stopAt = some sa → time < sa)
    (hloc : getActiveSegment segments time = none) :
    updateLoop segments stopAt playbackRate time
      = ⟨false, false, none, if playbackRate ≠ 1 then some 1 else none⟩ := by
  have hbody : updateLoopLocate segments playbackRate time
      = ⟨false, false, none, if playbackRate ≠ 1 then some 1 else none⟩ := by
    by_cases h1 : playbackRate ≠ 1 <;> simp [updateLoopLocate, hloc, h1]
  cases stopAt with
  | none => simpa [updateLoop] using hbody
  | some sa =>
      have : ¬ sa ≤ time := not_le.mpr (hstop sa rfl)
      simpa [updateLoop, this] using hbody

/-- Spec Scenario B instance of claim C7: with the single segment
`{0,10,1.0,KEEP}` on a 12 s source, a tick in the uncovered range at
`t = 11` resets a 2x rate to 1 without any skip, and a tick at rate 1
does nothing. -/
theorem gap_tick_fallback_claim_witness :
    updateLoop scenarioB none 2 11 = ⟨false, false, none, some 1⟩ ∧
    updateLoop scenarioB none 1 11 = ⟨false, false, none, none⟩ := by
  constructor
  · have h := gap_tick_fallback_claim scenarioB none 2 11
      (fun sa hsa => by cases hsa) (by decide)
    rw [h]; norm_num
  · have h := gap_tick_fallback_claim scenarioB none 1 11
      (fun sa hsa => by cases hsa) (by decide)
    rw [h]; norm_num

/-- Claim C8 as stated is false: with the store invariant holding
(`[start, end) ⊆ [0, totalDuration)` for every segment, here with
`totalDuration = 12`), the DELETE branch of a tick at position 6 writes
`12.01`, which lies outside `[0, 12]`. -/
theorem skip_jump_in_bounds_counterexample :
    (∀ seg ∈ c8Segments,
      0 ≤ seg.start ∧ seg.start < seg.«end» ∧ seg.«end» ≤ 12) ∧
    (updateLoop c8Segments none 1 6).seekTo = some (1201/100) ∧
    ¬ ((1201 : ℚ)/100 ≤ 12) := by
  refine ⟨by decide, ?_, by norm_num⟩
  have hloc : getActiveSegment c8Segments 6
      = some ⟨0, 12, 1, SegmentAction.DELETE, SegmentType.SILENCE,
          "all cut", false⟩ := by decide
  simp only [updateLoop, updateLoopLocate, hloc]
  norm_num

/-- Claim C8, amended: under the store invariant
(`0 ≤ start < end ≤ totalDuration` for every segment), every skip-jump
the live controller issues lands in `[0, totalDuration + 0.01]` — the
written value is the covering DELETE segment's `end + 0.01`, which can
exceed `totalDuration` by at most the 10 ms epsilon (and does so exactly
when the deleted range ends within 10 ms of the source's end). -/
theorem skip_jump_in_bounds_amended (segments : List EditSegment)
    (stopAt : Option ℚ) (playbackRate time totalDuration : ℚ)
    (hinv : ∀ seg ∈ segments,
      0 ≤ seg.start ∧ seg.start < seg.«end» ∧ seg.«end» ≤ totalDuration)
    (v : ℚ)
    (hv : (updateLoop segments stopAt playbackRate time).seekTo = some v) :
    0 ≤ v ∧ v ≤ totalDuration + 1/100 := by
  have hbody : ∀ (r : ℚ),
      (updateLoopLocate segments r time).seekTo = some v →
      0 ≤ v ∧ v ≤ totalDuration + 1/100 := by
    intro r hr
    simp only [updateLoopLocate] at hr
    cases hloc : getActiveSegment segments time with
    | none =>
        simp only [hloc] at hr
        by_cases h1 : r ≠ 1 <;> simp [h1] at hr
    | some seg =>
        simp only [hloc] at hr
        have hmem := getActiveSegment_some_spec hloc
        have hseg := hinv seg hmem.1
        by_cases hdel : seg.action = SegmentAction.DELETE
        · simp only [hdel, if_pos rfl] at hr
          have hv' : v = seg.«end» + 1/100 := by
            simpa using hr.symm
          subst hv'
          constructor
          · have h0 : (0 : ℚ) ≤ seg.«end» := le_of_lt (lt_of_le_of_lt hseg.1 hseg.2.1)
            linarith
          · linarith [hseg.2.2]
        · rw [if_neg hdel] at hr
          by_cases hsp : |r - seg.speed| > 1/10
          · rw [if_pos hsp] at hr
            simp at hr
          · rw [if_neg hsp] at hr
            simp at hr
  cases stopAt with
  | none =>
      simp only [updateLoop] at hv
      exact hbody playbackRate hv
  | some sa =>
      by_cases hle : sa ≤ time
      · simp [updateLoop, hle] at hv
      · simp only [updateLoop, if_neg hle] at hv
        exact hbody playbackRate hv

/-- Concrete instance of the amended claim C8: in Scenario A on a 12 s
source, the skip-jump written at `t = 6` lands in `[0, 12.01]`. -/
theorem skip_jump_in_bounds_amended_witness :
    0 ≤ (801 : ℚ)/100 ∧ (801 : ℚ)/100 ≤ 12 + 1/100 :=
  skip_jump_in_bounds_amended scenarioA none 1 6 12 (by decide) (801/100)
    (by
      have hloc : getActiveSegment scenarioA 6
          = some ⟨5, 8, 1, SegmentAction.DELETE, SegmentType.SILENCE,
              "dead air", false⟩ := by decide
      simp only [updateLoop, updateLoopLocate, hloc]
      norm_num)

/-! ### Export controller: promise-settlement lemmas

The export promise settles at most once; no handler changes a settled
promise.  In particular, once the export has been rejected, the queued
recorder `onstop` callback can no longer resolve it with a truncated
artifact. -/

theorem cleanup_promise (s : ExportState) : (cleanup s).1.promise = s.promise := by
  cases h1 : s.attached <;> cases h2 : s.recState <;> simp [cleanup, h1, h2]

theorem cleanup_attached (s : ExportState) : (cleanup s).1.attached = false := by
  cases h1 : s.attached <;> cases h2 : s.recState <;> simp [cleanup, h1, h2]

theorem cleanup_recState (s : ExportState) :
    (cleanup s).1.recState = RecState.inactive := by
  cases h1 : s.attached <;> cases h2 : s.recState <;> simp [cleanup, h1, h2]

theorem onSeeked_promise (s : ExportState) : (onSeeked s).1.promise = s.promise := rfl

theorem processNextSegment_promise (s : ExportState) :
    (processNextSegment s).1.promise = s.promise := by
  simp only [processNextSegment]
  split
  · rfl
  · split
    · rfl
    · split
      · exact onSeeked_promise _
      · rfl

theorem checkEnd_promise (s : ExportState) :
    (checkEnd s).1.promise = s.promise := by
  simp only [checkEnd]
  split
  · rfl
  · split
    · rfl
    · split
      · exact processNextSegment_promise _
      · rfl

theorem onPlayResolved_promise (s : ExportState) :
    (onPlayResolved s).1.promise = s.promise := by
  simp only [onPlayResolved]
  split
  · exact processNextSegment_promise _
  · rfl

theorem rejectP_settled (msg : String) (s : ExportState)
    (h : s.promise ≠ PromiseState.pending) : rejectP msg s = s := by
  unfold rejectP
  simp [h]

theorem resolveP_settled (ch : ℕ) (ext : String) (s : ExportState)
    (h : s.promise ≠ PromiseState.pending) : resolveP ch ext s = s := by
  unfold resolveP
  simp [h]

/-- A settled promise is never changed by any later event: in particular
no partial artifact is resolved after a rejection. -/
theorem step_settled (s : ExportState) (e : Ev)
    (h : s.promise ≠ PromiseState.pending) :
    (step s e).1.promise = s.promise := by
  cases e with
  | timeUpdate p =>
      simp only [step]
      split
      · exact checkEnd_promise _
      · rfl
  | seeked =>
      simp only [step]
      split
      · exact onSeeked_promise _
      · rfl
  | playResolved =>
      simp only [step]
      split
      · exact onPlayResolved_promise _
      · rfl
  | playRejected n m =>
      simp only [step]
      split
      · simp only [onPlayRejected]
        split
        · have hcp : (cleanup {s with playPending := false}).1.promise = s.promise :=
            cleanup_promise _
          rw [rejectP_settled _ _ (by rw [hcp]; exact h), hcp]
        · rfl
      · rfl
  | timeout =>
      simp only [step]
      split
      · exact processNextSegment_promise _
      · rfl
  | recorderStopped =>
      simp only [step]
      split
      · simp only [onRecorderStop]
        have hcp : (cleanup {s with stopPending := false}).1.promise = s.promise :=
          cleanup_promise _
        rw [resolveP_settled _ _ _ (by rw [hcp]; exact h), hcp]
      · rfl
  | dataAvailable sz =>
      simp only [step]
      split <;> rfl
  | endedEvt => rfl

theorem rejectP_promise_pending (msg : String) (s : ExportState)
    (h : s.promise = PromiseState.pending) :
    (rejectP msg s).promise = PromiseState.rejectedErr msg := by
  unfold rejectP
  simp [h]

theorem rejectP_attached (msg : String) (s : ExportState) :
    (rejectP msg s).attached = s.attached := by
  unfold rejectP
  split <;> rfl

theorem rejectP_recState (msg : String) (s : ExportState) :
    (rejectP msg s).recState = s.recState := by
  unfold rejectP
  split <;> rfl

/-- Claim C1: while a KEEP segment's `play()` promise is outstanding, a
rejection whose error name is not `AbortError` rejects the whole export
with the human-readable cause `"Playback failed during export: "` plus
the underlying error message; in the rejected state the transport element
has been released and the recorder is no longer recording, and no later
event (in particular not the queued recorder-stop callback) can ever
re-settle the promise, so no partial artifact is returned.  A rejection
that is an explicit `AbortError` is swallowed: the state is unchanged
except that the play promise is consumed, and no command is issued. -/
theorem play_failure_cleanup_claim (s : ExportState) (name msg : String)
    (hpend : s.playPending = true) (hprom : s.promise = PromiseState.pending) :
    (name ≠ "AbortError" →
      (step s (Ev.playRejected name msg)).1.promise
          = PromiseState.rejectedErr ("Playback failed during export: " ++ msg) ∧
      (step s (Ev.playRejected name msg)).1.attached = false ∧
      (step s (Ev.playRejected name msg)).1.recState = RecState.inactive ∧
      (∀ e, (step (step s (Ev.playRejected name msg)).1 e).1.promise
          = (step s (Ev.playRejected name msg)).1.promise)) ∧
    (name = "AbortError" →
      step s (Ev.playRejected name msg) = ({s with playPending := false}, [])) := by
  constructor
  · intro hab
    have hstep : step s (Ev.playRejected name msg)
        = (rejectP ("Playback failed during export: " ++ msg)
            (cleanup {s with playPending := false}).1,
          (cleanup {s with playPending := false}).2) := by
      simp [step, hpend, onPlayRejected, hab]
    have hcp : (cleanup {s with playPending := false}).1.promise
        = PromiseState.pending := by
      rw [cleanup_promise]
      exact hprom
    have hpr : (step s (Ev.playRejected name msg)).1.promise
        = PromiseState.rejectedErr ("Playback failed during export: " ++ msg) := by
      rw [hstep]
      exact rejectP_promise_pending _ _ hcp
    refine ⟨hpr, ?_, ?_, ?_⟩
    · rw [hstep]
      show (rejectP _ _).attached = false
      rw [rejectP_attached]
      exact cleanup_attached _
    · rw [hstep]
      show (rejectP _ _).recState = RecState.inactive
      rw [rejectP_recState]
      exact cleanup_recState _
    · intro e
      exact step_settled _ e (by rw [hpr]; simp)
  · intro hab
    subst hab
    simp [step, hpend, onPlayRejected]

/-- Concrete instance of claim C1: a `NotAllowedError` play rejection in
the middle of Scenario A's first KEEP segment rejects the export with the
composed cause, releases the transport, stops the recorder, and the
queued recorder-stop callback does not change the settled rejection. -/
theorem play_failure_cleanup_claim_witness :
    (step demoPlayingState (Ev.playRejected "NotAllowedError" "denied")).1.promise
        = PromiseState.rejectedErr ("Playback failed during export: " ++ "denied") ∧
    (step demoPlayingState (Ev.playRejected "NotAllowedError" "denied")).1.attached
        = false ∧
    (step demoPlayingState (Ev.playRejected "NotAllowedError" "denied")).1.recState
        = RecState.inactive ∧
    (step (step demoPlayingState (Ev.playRejected "NotAllowedError" "denied")).1
        Ev.recorderStopped).1.promise
      = (step demoPlayingState (Ev.playRejected "NotAllowedError" "denied")).1.promise := by
  obtain ⟨h1, h2, h3, h4⟩ :=
    (play_failure_cleanup_claim demoPlayingState "NotAllowedError" "denied" rfl rfl).1
      (by decide)
  exact ⟨h1, h2, h3, h4 Ev.recorderStopped⟩

/-- Claim C2: while the `play()` promise has not yet confirmed playback
(`isPlaying` still false), a `timeupdate` at any position — even one at or
past the segment's end — only records the position: the monitor neither
pauses nor advances.  Once playback start is confirmed, the stop
condition is immediately re-checked: if the position already reached the
captured segment's end, the transport is paused, the monitor detached,
the index advanced, and the next segment processed at once. -/
theorem armed_flag_gates_stop_claim (s : ExportState) (p : ℚ) :
    (s.isPlaying = false → step s (Ev.timeUpdate p) = ({s with pos := p}, [])) ∧
    (s.playPending = true → s.curSeg.«end» ≤ s.pos →
      step s Ev.playResolved =
        ((processNextSegment
            { s with
              playPending := false
              isPlaying := true
              paused := true
              checkEndAttached := false
              idx := s.idx + 1 }).1,
          Cmd.pause ::
            (processNextSegment
              { s with
                playPending := false
                isPlaying := true
                paused := true
                checkEndAttached := false
                idx := s.idx + 1 }).2)) := by
  constructor
  · intro h
    simp only [step]
    split
    · simp [checkEnd, h]
    · rfl
  · intro h1 h2
    simp [step, h1, onPlayResolved, h2]

/-- Concrete instance of claim C2: with play issued but unconfirmed, a
`timeupdate` at 4.5 s only records the position; and at confirmation with
position 5 already at the segment end `5`, the controller pauses,
detaches, advances and continues. -/
theorem armed_flag_gates_stop_claim_witness :
    step demoPlayingState (Ev.timeUpdate (9/2))
        = ({demoPlayingState with pos := 9/2}, []) ∧
    step demoPlayingState Ev.playResolved =
      ((processNextSegment
          { demoPlayingState with
            playPending := false
            isPlaying := true
            paused := true
            checkEndAttached := false
            idx := demoPlayingState.idx + 1 }).1,
        Cmd.pause ::
          (processNextSegment
            { demoPlayingState with
              playPending := false
              isPlaying := true
              paused := true
              checkEndAttached := false
              idx := demoPlayingState.idx + 1 }).2) :=
  ⟨(armed_flag_gates_stop_claim demoPlayingState (9/2)).1 rfl,
   (armed_flag_gates_stop_claim demoPlayingState (9/2)).2 rfl (by decide)⟩

/-- Claim C10: whenever the transport reports itself paused or ended, the
attached position monitor takes no action on a `timeupdate` — no pause
command, no index advance, no state change beyond recording the reported
position — even if that position is at or past the segment's end; and the
end-of-media event itself only sets the `ended`/`paused` flags, never
advancing the export state machine by itself. -/
theorem monitor_inert_when_paused_claim (s : ExportState) (p : ℚ)
    (h : s.paused = true ∨ s.ended = true) :
    step s (Ev.timeUpdate p) = ({s with pos := p}, []) ∧
    step s Ev.endedEvt = ({s with ended := true, paused := true}, []) := by
  constructor
  · simp only [step]
    split
    · rcases h with h | h <;> simp [checkEnd, h]
    · rfl
  · rfl

/-- Concrete instance of claim C10: an ended transport reporting position
6 (past the current segment's end 5) leaves the export state machine
untouched. -/
theorem monitor_inert_when_paused_claim_witness :
    step {demoPlayingState with ended := true} (Ev.timeUpdate 6)
        = ({{demoPlayingState with ended := true} with pos := 6}, []) ∧
    step {demoPlayingState with ended := true} Ev.endedEvt
        = ({{demoPlayingState with ended := true} with ended := true, paused := true},
            []) :=
  monitor_inert_when_paused_claim {demoPlayingState with ended := true} 6
    (Or.inr rfl)

/-- Claim C3: for a KEEP segment, if the transport position is within
50 ms of `segment.start` the controller proceeds immediately — it issues
the rate change and `play()` right away and registers no `seeked`
listener; otherwise it writes `segment.start` to the position, registers
a one-shot `seeked` listener, and issues neither rate change nor play
yet.  The seek-completion signal is consumed exactly once: the first
`seeked` event clears the listener and then sets the speed and starts
playback; a `seeked` event with no listener registered is a no-op. -/
theorem seek_wait_skip_claim (s : ExportState)
    (hlt : s.idx < s.segments.length)
    (hkeep : (s.segments.getD s.idx default).action = SegmentAction.KEEP) :
    (|s.pos - (s.segments.getD s.idx default).start| < 1/20 →
      (processNextSegment s).2
          = [Cmd.setRate (s.segments.getD s.idx default).speed, Cmd.play] ∧
      (processNextSegment s).1.seekedListener = s.seekedListener ∧
      (processNextSegment s).1.rate = (s.segments.getD s.idx default).speed ∧
      (processNextSegment s).1.playPending = true) ∧
    (¬ |s.pos - (s.segments.getD s.idx default).start| < 1/20 →
      (processNextSegment s).2
          = [Cmd.setPosition (s.segments.getD s.idx default).start] ∧
      (processNextSegment s).1.seekedListener = true ∧
      (processNextSegment s).1.pos = (s.segments.getD s.idx default).start ∧
      (processNextSegment s).1.rate = s.rate ∧
      (processNextSegment s).1.playPending = s.playPending) ∧
    (∀ s' : ExportState, s'.seekedListener = true →
      (step s' Ev.seeked).2 = [Cmd.setRate s'.curSeg.speed, Cmd.play] ∧
      (step s' Ev.seeked).1.seekedListener = false ∧
      (step s' Ev.seeked).1.rate = s'.curSeg.speed ∧
      (step s' Ev.seeked).1.playPending = true) ∧
    (∀ s' : ExportState, s'.seekedListener = false →
      step s' Ev.seeked = (s', [])) := by
  have hlen : ¬ s.segments.length ≤ s.idx := not_le.mpr hlt
  have hdel : ¬ (s.segments.getD s.idx default).action = SegmentAction.DELETE := by
    rw [hkeep]
    decide
  refine ⟨?_, ?_, ?_, ?_⟩
  · intro hnear
    simp only [processNextSegment, onSeeked]
    split
    · next h => exact absurd h hlen
    · exact ⟨rfl, rfl, rfl, rfl⟩
  · intro hfar
    simp only [processNextSegment]
    split
    · next h => exact absurd h hlen
    · exact ⟨rfl, rfl, rfl, rfl, rfl⟩
  · intro s' h
    simp [step, onSeeked, h]
  · intro s' h
    simp [step, h]

/-- Concrete instance of claim C3 at Scenario A's second KEEP segment
`{8,12,2.0}`: from position 5 (3 s off) the controller only issues the
seek and registers the listener; from position 8 (zero delta) it issues
the rate change and play immediately. -/
theorem seek_wait_skip_claim_witness :
    (processNextSegment demoSeekState).2 = [Cmd.setPosition 8] ∧
    (processNextSegment demoSeekState).1.seekedListener = true ∧
    (processNextSegment {demoSeekState with pos := 8}).2
        = [Cmd.setRate 2, Cmd.play] := by
  have hfar := (seek_wait_skip_claim demoSeekState (by decide) (by decide)).2.1
    (by norm_num [demoSeekState, demoDeleteState, scenarioA, List.getD])
  have hnear := (seek_wait_skip_claim {demoSeekState with pos := 8}
    (by decide) (by decide)).1
    (by norm_num [demoSeekState, demoDeleteState, scenarioA, List.getD])
  exact ⟨hfar.1.trans (by decide), hfar.2.1, hnear.1.trans (by decide)⟩

/-- Claim C4: a DELETE segment is handled without touching the transport
or the capture: the step issues no command at all, leaves the chunk
accumulator and every transport field unchanged, advances the index by
one, and queues the continuation as a `setTimeout` event instead of
recursing — each queued timeout is then consumed as its own event-loop
turn (a trampoline), so a run of consecutive DELETE segments costs one
flat turn per segment and no nested calls. -/
theorem delete_skip_trampoline_claim (s : ExportState)
    (hlt : s.idx < s.segments.length)
    (hdel : (s.segments.getD s.idx default).action = SegmentAction.DELETE) :
    processNextSegment s =
      ({ s with
          curSeg := s.segments.getD s.idx default
          progressLog := s.progressLog
            ++ [exportProgress s.idx s.segments.length]
          idx := s.idx + 1
          timeoutPending := true }, []) ∧
    (∀ s' : ExportState, s'.timeoutPending = true →
      step s' Ev.timeout = processNextSegment {s' with timeoutPending := false}) ∧
    (∀ s' : ExportState, s'.timeoutPending = false →
      step s' Ev.timeout = (s', [])) := by
  have hlen : ¬ s.segments.length ≤ s.idx := not_le.mpr hlt
  refine ⟨?_, ?_, ?_⟩
  · simp only [processNextSegment]
    split
    · next h => exact absurd h hlen
    · rfl
  · intro s' h
    simp [step, h]
  · intro s' h
    simp [step, h]

/-- Concrete instance of claim C4 at Scenario A's DELETE segment
`{5,8,1.0}`: no command is issued, the index advances, the continuation
is queued, and firing the queued timeout runs exactly one further
`processNextSegment` turn. -/
theorem delete_skip_trampoline_claim_witness :
    processNextSegment demoDeleteState =
      ({ demoDeleteState with
          curSeg := demoDeleteState.segments.getD demoDeleteState.idx default
          progressLog := demoDeleteState.progressLog
            ++ [exportProgress demoDeleteState.idx demoDeleteState.segments.length]
          idx := demoDeleteState.idx + 1
          timeoutPending := true }, []) ∧
    step {demoDeleteState with timeoutPending := true} Ev.timeout
      = processNextSegment
          {{demoDeleteState with timeoutPending := true} with
            timeoutPending := false} := by
  have h := delete_skip_trampoline_claim demoDeleteState (by decide) (by decide)
  exact ⟨h.1, h.2.1 {demoDeleteState with timeoutPending := true} rfl⟩

/-! ### Segment refinement and splice -/

theorem SegOverlap_symm {a b : EditSegment} (h : SegOverlap a b) : SegOverlap b a := by
  unfold SegOverlap at h ⊢
  rw [max_comm, min_comm]
  exact h

theorem KeepDisjoint_symm {a b : EditSegment} (h : KeepDisjoint a b) :
    KeepDisjoint b a :=
  fun hb ha hov => h ha hb (SegOverlap_symm hov)

/-- A segment `b` contained in `t`'s interval can only overlap what `t`
overlaps. -/
theorem SegOverlap_of_within (t b x : EditSegment) (h1 : t.start ≤ b.start)
    (h2 : b.«end» ≤ t.«end») (h : SegOverlap x b) : SegOverlap x t := by
  unfold SegOverlap at h ⊢
  calc max x.start t.start ≤ max x.start b.start := max_le_max (le_refl _) h1
    _ < min x.«end» b.«end» := h
    _ ≤ min x.«end» t.«end» := min_le_min (le_refl _) h2

theorem refineClamp_bounds (startTime endTime : ℚ) (subs : List EditSegment) :
    ∀ s ∈ refineClamp startTime endTime subs,
      startTime ≤ s.start ∧ s.«end» ≤ endTime := by
  intro s hs
  rw [refineClamp, List.mem_map] at hs
  obtain ⟨u, _, rfl⟩ := hs
  exact ⟨le_max_left _ _, min_le_left _ _⟩

theorem refineSegment_mem {startTime endTime : ℚ} {subs : List EditSegment}
    {s : EditSegment} :
    s ∈ refineSegment startTime endTime subs ↔
      s ∈ refineClamp startTime endTime subs := by
  rw [refineSegment]
  exact List.mem_mergeSort

theorem refineSegment_bounds (startTime endTime : ℚ) (subs : List EditSegment) :
    ∀ s ∈ refineSegment startTime endTime subs,
      startTime ≤ s.start ∧ s.«end» ≤ endTime :=
  fun s hs => refineClamp_bounds _ _ _ s (refineSegment_mem.mp hs)

/-- Clamping cannot create a KEEP overlap: the clamp only shrinks
intervals and preserves actions. -/
theorem refineClamp_noKeepOverlap (startTime endTime : ℚ)
    {subs : List EditSegment} (h : NoKeepOverlap subs) :
    NoKeepOverlap (refineClamp startTime endTime subs) := by
  rw [refineClamp, NoKeepOverlap, List.pairwise_map]
  refine h.imp ?_
  intro a b hab hKa hKb hov
  apply hab hKa hKb
  unfold SegOverlap at hov ⊢
  calc max a.start b.start
      ≤ max (max startTime a.start) (max startTime b.start) :=
        max_le_max (le_max_right _ _) (le_max_right _ _)
    _ < min (min endTime a.«end») (min endTime b.«end») := hov
    _ ≤ min a.«end» b.«end» :=
        min_le_min (min_le_right _ _) (min_le_right _ _)

theorem refineSegment_noKeepOverlap (startTime endTime : ℚ)
    {subs : List EditSegment} (h : NoKeepOverlap subs) :
    NoKeepOverlap (refineSegment startTime endTime subs) := by
  rw [refineSegment, NoKeepOverlap]
  have hperm := List.mergeSort_perm (refineClamp startTime endTime subs)
    (fun a b => decide (a.start ≤ b.start))
  rw [hperm.pairwise_iff (fun hxy => KeepDisjoint_symm hxy)]
  exact refineClamp_noKeepOverlap startTime endTime h

/-- Claim C9 as stated is false: clamping bounds sub-segment timestamps
but does not make overlapping sub-segments disjoint.  Refining the KEEP
segment `{4,9}` with in-bounds but mutually overlapping KEEP sub-segments
`[{4,8},{5,9}]` splices a store that violates the no-KEEP-overlap
invariant, even though every spliced sub-segment respects the original
`[4, 9]` range. -/
theorem refine_splice_overlap_counterexample :
    NoKeepOverlap c9Store ∧
    (∀ s ∈ refineSegment 4 9 c9BadSubs, 4 ≤ s.start ∧ s.«end» ≤ 9) ∧
    ¬ NoKeepOverlap (handleSplitSegment c9Store 0 c9BadSubs) := by
  refine ⟨by decide, ?_, ?_⟩
  · intro s hs
    rw [refineSegment_mem] at hs
    exact (by decide : ∀ s ∈ refineClamp 4 9 c9BadSubs,
      4 ≤ s.start ∧ s.«end» ≤ 9) s hs
  · intro h
    have hc : 0 < (refineSegment (c9Store.getD 0 default).start
        (c9Store.getD 0 default).«end» c9BadSubs).length := by
      rw [refineSegment, List.length_mergeSort]
      decide
    simp only [handleSplitSegment] at h
    rw [if_pos hc] at h
    have h2 : NoKeepOverlap (refineSegment 4 9 c9BadSubs) := by
      simpa [c9Store] using h
    have h3 : NoKeepOverlap (refineClamp 4 9 c9BadSubs) := by
      unfold NoKeepOverlap at h2 ⊢
      rw [refineSegment] at h2
      have hperm := List.mergeSort_perm (refineClamp 4 9 c9BadSubs)
        (fun a b => decide (a.start ≤ b.start))
      exact (hperm.pairwise_iff (fun hxy => KeepDisjoint_symm hxy)).mp h2
    exact absurd h3 (by decide)

/-- Claim C9, amended: every sub-segment the refinement splices in is
clamped into the original segment's `[start, end]` range, regardless of
what the upstream refinement returned (first conjunct, unconditional);
and the no-KEEP-overlap store invariant is preserved by the splice
provided the replaced segment is a KEEP segment of an invariant-
satisfying store and the returned sub-segments are themselves pairwise
non-overlapping as KEEP segments — without that last proviso the claim
fails, as the counterexample shows, because the code clamps bounds but
never reconciles sub-segments against each other. -/
theorem refine_clamp_splice_amended (segments : List EditSegment) (index : ℕ)
    (upstream : List EditSegment) :
    (∀ s ∈ refineSegment (segments.getD index default).start
        (segments.getD index default).«end» upstream,
      (segments.getD index default).start ≤ s.start ∧
        s.«end» ≤ (segments.getD index default).«end») ∧
    (NoKeepOverlap segments → index < segments.length →
      (segments.getD index default).action = SegmentAction.KEEP →
      NoKeepOverlap upstream →
      NoKeepOverlap (handleSplitSegment segments index upstream)) := by
  refine ⟨refineSegment_bounds _ _ _, ?_⟩
  intro hno hlt hkeep hup
  have hsubs_no : NoKeepOverlap
      (refineSegment (segments.getD index default).start
        (segments.getD index default).«end» upstream) :=
    refineSegment_noKeepOverlap _ _ hup
  have hbounds := refineSegment_bounds (segments.getD index default).start
    (segments.getD index default).«end» upstream
  simp only [handleSplitSegment]
  split
  · -- the splice branch
    have hdecomp : segments.take index
        ++ segments.getD index default :: segments.drop (index + 1)
        = segments := by
      rw [List.getD_eq_getElem segments default hlt,
        ← List.drop_eq_getElem_cons hlt, List.take_append_drop]
    rw [NoKeepOverlap, ← hdecomp, List.pairwise_append] at hno
    obtain ⟨htake, hcons, hcross⟩ := hno
    rw [List.pairwise_cons] at hcons
    obtain ⟨hTdrop, hdrop⟩ := hcons
    rw [NoKeepOverlap, List.pairwise_append, List.pairwise_append]
    refine ⟨⟨htake, hsubs_no, ?_⟩, hdrop, ?_⟩
    · intro a ha b hb hKa hKb hov
      have hb' := hbounds b hb
      have hovT : SegOverlap a (segments.getD index default) :=
        SegOverlap_of_within _ b a hb'.1 hb'.2 hov
      exact hcross a ha (segments.getD index default)
        (List.mem_cons_self _ _) hKa hkeep hovT
    · intro a ha c hc
      rcases List.mem_append.mp ha with ha' | ha'
      · exact hcross a ha' c (List.mem_cons_of_mem _ hc)
      · intro hKa hKc hov
        have ha'' := hbounds a ha'
        have hovT : SegOverlap (segments.getD index default) c :=
          SegOverlap_symm
            (SegOverlap_of_within _ a c ha''.1 ha''.2 (SegOverlap_symm hov))
        exact hTdrop c hc hkeep hKc hovT
  · -- the empty-refinement branch leaves the store unchanged
    exact hno

/-- Spec Scenario C instance of the amended claim C9: refining `{4,9}`
with `[{4,6},{7,9}]` (gap from 6 to 7) keeps every spliced sub-segment
inside `[4, 9]` and the resulting store satisfies no-KEEP-overlap; the
gap is simply left uncovered (implicit keep). -/
theorem refine_clamp_splice_amended_witness :
    ((c9Store.getD 0 default).start
        ≤ (⟨4, 6, 1, SegmentAction.KEEP, SegmentType.CORE, "a", false⟩ :
            EditSegment).start ∧
      (⟨4, 6, 1, SegmentAction.KEEP, SegmentType.CORE, "a", false⟩ :
          EditSegment).«end» ≤ (c9Store.getD 0 default).«end») ∧
    NoKeepOverlap (handleSplitSegment c9Store 0 c9GoodSubs) := by
  have h := refine_clamp_splice_amended c9Store 0 c9GoodSubs
  exact ⟨h.1 _ (refineSegment_mem.mpr (by decide)),
    h.2 (by decide) (by decide) (by decide) (by decide)⟩
